import Mathlib

/-!
Verification of the environment-variable coercion and redaction core of the
env-x-utils library.

The development shallowly embeds the three functions with algorithmic content:

* `safeStringify` (the redacting serializer) from src/lib/utils.ts,
* `safeArray` (the array-normalization helper, spec name `toArray`) from
  src/lib/utils.ts,
* `env` (the coercion function, spec name `coerce`) from src/lib/env.ts.

JavaScript dynamic values are embedded as the inductive type `JsValue`
(including the `undefined` sentinel as `JsValue.undef`); JavaScript numbers
are embedded as exact rationals together with NaN and the two infinities
(`JsNum`).  Host primitives used by the source are embedded from their
ECMAScript specification: `jsStringToNumber` models `Number(string)`,
`jsonParse` models `JSON.parse`, `jsTrim`, `strStartsWith`, `strEndsWith`,
`strToLower`, `strContains`, `strSplitComma` model the corresponding string
methods over character lists.  All definitions are executable and reduce in
the kernel, so concrete runs of the code can be checked by `rfl`/`decide`.
-/

namespace EnvX

/-! ## String primitives (list-based models of the JS string methods) -/

/-- characters treated as whitespace by the JS `trim` and `Number` conversions
(the common WhiteSpace and LineTerminator code points) -/
def isJsWhitespace (c : Char) : Bool :=
  c = ' ' || c = '\t' || c = '\n' || c = '\r' || c = '\x0b' || c = '\x0c' ||
  c = '\u00a0' || c = '\u2028' || c = '\u2029' || decide (c.toNat = 0xfeff)

/-- model of JS `s.trim()` -/
def jsTrim (s : String) : String :=
  ⟨((s.data.dropWhile isJsWhitespace).reverse.dropWhile isJsWhitespace).reverse⟩

def listIsPrefix : List Char → List Char → Bool
  | [], _ => true
  | _ :: _, [] => false
  | a :: as, b :: bs => a == b && listIsPrefix as bs

/-- model of JS `s.startsWith(p)` -/
def strStartsWith (s p : String) : Bool := listIsPrefix p.data s.data

/-- model of JS `s.endsWith(p)` -/
def strEndsWith (s p : String) : Bool := listIsPrefix p.data.reverse s.data.reverse

/-- model of JS `s.toLowerCase()` (ASCII case mapping; the literals compared
against in the source are ASCII) -/
def strToLower (s : String) : String := ⟨s.data.map Char.toLower⟩

/-- `listContainsSeg p s` holds when `p` occurs as a contiguous segment of `s` -/
def listContainsSeg (p : List Char) : List Char → Bool
  | [] => listIsPrefix p []
  | c :: rest => listIsPrefix p (c :: rest) || listContainsSeg p rest

/-- model of JS `s.includes(p)` (substring containment, case-sensitive) -/
def strContains (s p : String) : Bool := listContainsSeg p.data s.data

/-- model of JS `s.includes(c)` for a single character -/
def strContainsChar (s : String) (c : Char) : Bool := s.data.contains c

def listSplitOnChar (sep : Char) : List Char → List (List Char)
  | [] => [[]]
  | c :: rest =>
    let r := listSplitOnChar sep rest
    if c = sep then [] :: r
    else
      match r with
      | g :: gs => (c :: g) :: gs
      | [] => [[c]]

/-- model of JS `s.split(",")` -/
def strSplitComma (s : String) : List String :=
  (listSplitOnChar ',' s.data).map (fun l => ⟨l⟩)

/-! ## JS values and numbers -/

/-- a JS number: NaN, an infinity (`true` for positive), or a finite value.
Finite values are carried as exact rationals; the source only relies on
integral values, where the embedding agrees with IEEE doubles. -/
inductive JsNum where
  | nan : JsNum
  | infinite : Bool → JsNum
  | finite : ℚ → JsNum
  deriving DecidableEq, Repr

/-- a JS runtime value reachable by the functions under verification,
including the `undefined` sentinel -/
inductive JsValue where
  | undef : JsValue
  | null : JsValue
  | bool : Bool → JsValue
  | num : JsNum → JsValue
  | str : String → JsValue
  | arr : List JsValue → JsValue
  | obj : List (String × JsValue) → JsValue

/-! ## Model of `Number(string)` (ECMAScript StringToNumber) -/

def natOfDigits (ds : List Char) : Nat :=
  ds.foldl (fun a c => a * 10 + (c.toNat - 48)) 0

/-- exact rational value of a decimal literal: sign, integer digits, fraction
digits, exponent sign and digits -/
def decToRat (neg : Bool) (intDs fracDs : List Char) (expNonneg : Bool)
    (expDs : List Char) : ℚ :=
  let m : Nat := natOfDigits intDs * 10 ^ fracDs.length + natOfDigits fracDs
  let e : Nat := natOfDigits expDs
  let mz : Int := if neg then -(m : Int) else (m : Int)
  if expNonneg then mkRat (mz * ((10 ^ e : Nat) : Int)) (10 ^ fracDs.length)
  else mkRat mz (10 ^ fracDs.length * 10 ^ e)

/-- StrUnsignedDecimalLiteral without the Infinity alternative:
DecimalDigits [. DecimalDigits] [ExponentPart] or . DecimalDigits
[ExponentPart]; the whole input must be consumed -/
def parseDecMantissa (neg : Bool) (cs : List Char) : Option ℚ :=
  let intDs := cs.takeWhile Char.isDigit
  let r1 := cs.dropWhile Char.isDigit
  let fr :=
    match r1 with
    | '.' :: r => (r.takeWhile Char.isDigit, r.dropWhile Char.isDigit)
    | _ => ([], r1)
  let fracDs := fr.1
  let r2 := fr.2
  if intDs.isEmpty && fracDs.isEmpty then none
  else
    match r2 with
    | [] => some (decToRat neg intDs fracDs true [])
    | e :: r3 =>
      if e = 'e' || e = 'E' then
        let sr :=
          match r3 with
          | '+' :: r => (true, r)
          | '-' :: r => (false, r)
          | r => (true, r)
        let expDs := sr.2.takeWhile Char.isDigit
        let r5 := sr.2.dropWhile Char.isDigit
        if expDs.isEmpty || !r5.isEmpty then none
        else some (decToRat neg intDs fracDs sr.1 expDs)
      else none

def strUnsignedDecimal (neg : Bool) (cs : List Char) : JsNum :=
  if cs = "Infinity".data then .infinite (!neg)
  else
    match parseDecMantissa neg cs with
    | some q => .finite q
    | none => .nan

def strDecimalLiteral (cs : List Char) : JsNum :=
  match cs with
  | '+' :: rest => strUnsignedDecimal false rest
  | '-' :: rest => strUnsignedDecimal true rest
  | rest => strUnsignedDecimal false rest

def hexVal (c : Char) : Nat :=
  if c.isDigit then c.toNat - 48
  else if 'a' ≤ c then c.toNat - 87
  else c.toNat - 55

def isHexDigitChar (c : Char) : Bool :=
  c.isDigit || (decide ('a' ≤ c) && decide (c ≤ 'f')) ||
    (decide ('A' ≤ c) && decide (c ≤ 'F'))

def parseRadixNum (radix : Nat) (isDig : Char → Bool) (val : Char → Nat)
    (cs : List Char) : JsNum :=
  if cs.isEmpty then .nan
  else if cs.all isDig then
    .finite (mkRat ((cs.foldl (fun a c => a * radix + val c) 0 : Nat) : Int) 1)
  else .nan

/-- StrNumericLiteral over a nonempty trimmed input: a NonDecimalIntegerLiteral
(0x, 0o, 0b forms, signless) or a signed decimal literal / Infinity -/
def jsStrNumeric (cs : List Char) : JsNum :=
  match cs with
  | '0' :: x :: rest =>
    if x = 'x' || x = 'X' then parseRadixNum 16 isHexDigitChar hexVal rest
    else if x = 'o' || x = 'O' then
      parseRadixNum 8 (fun c => decide ('0' ≤ c) && decide (c ≤ '7'))
        (fun c => c.toNat - 48) rest
    else if x = 'b' || x = 'B' then
      parseRadixNum 2 (fun c => c = '0' || c = '1') (fun c => c.toNat - 48) rest
    else strDecimalLiteral cs
  | _ => strDecimalLiteral cs

/-- model of JS `Number(s)` for string arguments (ECMAScript StringToNumber):
trim whitespace, empty means 0, otherwise parse a numeric literal; the result
is NaN when the whole string is not a numeric literal.  Finite values are kept
as exact rationals (no rounding to doubles; the claims only rely on integral
values, where both agree). -/
def jsStringToNumber (s : String) : JsNum :=
  match (jsTrim s).data with
  | [] => .finite 0
  | cs => jsStrNumeric cs

/-! ## Model of `JSON.parse` -/

def jsonSkipWs : List Char → List Char
  | c :: r => if c = ' ' || c = '\t' || c = '\n' || c = '\r' then jsonSkipWs r else c :: r
  | [] => []

def hexDigitValOpt (c : Char) : Option Nat :=
  if c.isDigit then some (c.toNat - 48)
  else if decide ('a' ≤ c) && decide (c ≤ 'f') then some (c.toNat - 87)
  else if decide ('A' ≤ c) && decide (c ≤ 'F') then some (c.toNat - 55)
  else none

def consFst (c : Char) : List Char × List Char → List Char × List Char :=
  fun p => (c :: p.1, p.2)

/-- body of a JSON string, after the opening quote; returns the decoded
content and the remainder after the closing quote.  The fuel argument is
instantiated with the remaining length, which bounds the recursion. -/
def parseJStr : Nat → List Char → Option (List Char × List Char)
  | 0, _ => none
  | _ + 1, [] => none
  | _ + 1, '"' :: r => some ([], r)
  | f + 1, '\\' :: r =>
    match r with
    | '"' :: r2 => (parseJStr f r2).map (consFst '"')
    | '\\' :: r2 => (parseJStr f r2).map (consFst '\\')
    | '/' :: r2 => (parseJStr f r2).map (consFst '/')
    | 'b' :: r2 => (parseJStr f r2).map (consFst '\x08')
    | 'f' :: r2 => (parseJStr f r2).map (consFst '\x0c')
    | 'n' :: r2 => (parseJStr f r2).map (consFst '\n')
    | 'r' :: r2 => (parseJStr f r2).map (consFst '\r')
    | 't' :: r2 => (parseJStr f r2).map (consFst '\t')
    | 'u' :: c1 :: c2 :: c3 :: c4 :: r2 =>
      match hexDigitValOpt c1, hexDigitValOpt c2, hexDigitValOpt c3, hexDigitValOpt c4 with
      | some a, some b, some c, some d =>
        (parseJStr f r2).map (consFst (Char.ofNat (((a * 16 + b) * 16 + c) * 16 + d)))
      | _, _, _, _ => none
    | _ => none
  | f + 1, c :: r =>
    if c.toNat < 0x20 then none else (parseJStr f r).map (consFst c)

/-- fraction and exponent tail of a JSON number, after the integer digits -/
def jsonNumTail (neg : Bool) (intDs : List Char) (cs : List Char) :
    Option (ℚ × List Char) :=
  let fr :=
    match cs with
    | '.' :: r =>
      let ds := r.takeWhile Char.isDigit
      if ds.isEmpty then none
      else some (ds, r.dropWhile Char.isDigit)
    | _ => some (([] : List Char), cs)
  match fr with
  | none => none
  | some (fracDs, r2) =>
    match r2 with
    | e :: r3 =>
      if e = 'e' || e = 'E' then
        let sr :=
          match r3 with
          | '+' :: r => (true, r)
          | '-' :: r => (false, r)
          | r => (true, r)
        let expDs := sr.2.takeWhile Char.isDigit
        if expDs.isEmpty then none
        else some (decToRat neg intDs fracDs sr.1 expDs, sr.2.dropWhile Char.isDigit)
      else some (decToRat neg intDs fracDs true [], r2)
    | [] => some (decToRat neg intDs fracDs true [], [])

/-- a JSON number: -? (0 or nonzero-led digits) [fraction] [exponent] -/
def parseJNum (cs : List Char) : Option (ℚ × List Char) :=
  let sr := match cs with | '-' :: r => (true, r) | r => (false, r)
  let neg := sr.1
  match sr.2 with
  | [] => none
  | c :: r1 =>
    if c = '0' then jsonNumTail neg [c] r1
    else if c.isDigit then
      jsonNumTail neg ((c :: r1).takeWhile Char.isDigit) ((c :: r1).dropWhile Char.isDigit)
    else none

def parseJMember (pv : List Char → Option (JsValue × List Char)) (cs : List Char) :
    Option ((String × JsValue) × List Char) :=
  match jsonSkipWs cs with
  | '"' :: r =>
    match parseJStr (r.length + 1) r with
    | some (key, r2) =>
      match jsonSkipWs r2 with
      | ':' :: r3 =>
        match pv r3 with
        | some (v, r4) => some ((⟨key⟩, v), r4)
        | none => none
      | _ => none
    | none => none
  | _ => none

def parseJObjLoop (pv : List Char → Option (JsValue × List Char)) :
    Nat → List (String × JsValue) → List Char →
      Option (List (String × JsValue) × List Char)
  | 0, _, _ => none
  | f + 1, acc, cs =>
    match jsonSkipWs cs with
    | ',' :: r =>
      match parseJMember pv r with
      | some (m, r2) => parseJObjLoop pv f (acc ++ [m]) r2
      | none => none
    | '\x7d' :: r => some (acc, r)
    | _ => none

def parseJObj (pv : List Char → Option (JsValue × List Char)) (cs : List Char) :
    Option (List (String × JsValue) × List Char) :=
  match jsonSkipWs cs with
  | '\x7d' :: r => some ([], r)
  | _ =>
    match parseJMember pv cs with
    | some (m, r2) => parseJObjLoop pv (r2.length + 1) [m] r2
    | none => none

def parseJArrLoop (pv : List Char → Option (JsValue × List Char)) :
    Nat → List JsValue → List Char → Option (List JsValue × List Char)
  | 0, _, _ => none
  | f + 1, acc, cs =>
    match jsonSkipWs cs with
    | ',' :: r =>
      match pv r with
      | some (v, r2) => parseJArrLoop pv f (acc ++ [v]) r2
      | none => none
    | ']' :: r => some (acc, r)
    | _ => none

def parseJArr (pv : List Char → Option (JsValue × List Char)) (cs : List Char) :
    Option (List JsValue × List Char) :=
  match jsonSkipWs cs with
  | ']' :: r => some ([], r)
  | _ =>
    match pv cs with
    | some (v, r2) => parseJArrLoop pv (r2.length + 1) [v] r2
    | none => none

/-- a JSON value; the fuel (instantiated with the input length plus one)
dominates the nesting depth, since every nested value is preceded by at least
one consumed character -/
def parseJValue : Nat → List Char → Option (JsValue × List Char)
  | 0, _ => none
  | f + 1, cs =>
    match jsonSkipWs cs with
    | [] => none
    | '\x7b' :: r => (parseJObj (parseJValue f) r).map (fun p => (.obj p.1, p.2))
    | '[' :: r => (parseJArr (parseJValue f) r).map (fun p => (.arr p.1, p.2))
    | '"' :: r => (parseJStr (r.length + 1) r).map (fun p => (.str ⟨p.1⟩, p.2))
    | 't' :: r => if r.take 3 = ['r', 'u', 'e'] then some (.bool true, r.drop 3) else none
    | 'f' :: r => if r.take 4 = ['a', 'l', 's', 'e'] then some (.bool false, r.drop 4) else none
    | 'n' :: r => if r.take 3 = ['u', 'l', 'l'] then some (.null, r.drop 3) else none
    | c :: r =>
      if c = '-' || c.isDigit then
        (parseJNum (c :: r)).map (fun p => (.num (.finite p.1), p.2))
      else none

/-- model of JS `JSON.parse`: parse one JSON value, allow trailing whitespace
only; a failure models the thrown SyntaxError -/
def jsonParse (s : String) : Except String JsValue :=
  match parseJValue (s.length + 1) s.data with
  | some (v, rest) =>
    if (jsonSkipWs rest).isEmpty then .ok v else .error "SyntaxError"
  | none => .error "SyntaxError"

/-! ## `safeArray` from src/lib/utils.ts (lines 147-195; spec name `toArray`) -/

/-- model of `safeArray`.  The null and undefined inputs return the empty
array; arrays are returned as-is; strings are trimmed, split on commas when
one is present (segments trimmed, empty segments dropped); objects and the
remaining primitives are wrapped in a singleton.  The try/catch around the
object case in the source cannot fire (constructing a singleton array does
not throw), so the catch branch has no counterpart here. -/
def safeArray (v : JsValue) : List JsValue :=
  match v with
  | .undef => []
  | .null => []
  | .arr xs => xs
  | .str s =>
    let trimmedStr := jsTrim s
    if trimmedStr = "" then []
    else if strContainsChar trimmedStr ',' then
      let items := ((strSplitComma trimmedStr).map (fun item => jsTrim item)).filter
        (fun item => item != "")
      if items.length > 0 then items.map .str else []
    else [.str trimmedStr]
  | .obj fields => [.obj fields]
  | other => [other]

/-! ## `env` from src/lib/env.ts (lines 272-324; spec name `coerce`) -/

/-- the JSON-bracket test of the source: the raw value starts with an opening
brace and ends with a closing brace, or starts with an opening bracket and
ends with a closing bracket -/
def looksLikeJson (value : String) : Bool :=
  (strStartsWith value "\x7b" && strEndsWith value "\x7d")
  || (strStartsWith value "[" && strEndsWith value "]")

/-- the body of `env` once a raw string value has been looked up: empty value
returns the default; then the JSON-bracket, boolean, numeric checks in the
source's order; a JSON decode failure (the only throwing operation in the try
block) is caught and returns the default; when nothing applies the raw string
is returned.  Values from `process.env` are always strings, so the source's
`Array.isArray` and `typeof value === 'object'` branches after the string
branch are unreachable and have no counterpart here. -/
def envValue (value : String) (defaultValue : JsValue) : JsValue :=
  if value = "" then defaultValue
  else
    if looksLikeJson value then
      match jsonParse value with
      | .ok j => j
      | .error _ => defaultValue
    else if strToLower value = "true" then .bool true
    else if strToLower value = "false" then .bool false
    else
      match jsStringToNumber value with
      | .nan => .str value
      | n => .num n

/-- model of `env`.  The Configuration Source is passed explicitly as
`environ`; a `none` result of the lookup models an unset variable.  An empty
`key` is falsy in JS, returning the default with no lookup. -/
def env (environ : String → Option String) (key : String) (defaultValue : JsValue) :
    JsValue :=
  if key = "" then defaultValue
  else
    match environ key with
    | none => defaultValue
    | some value => envValue value defaultValue

/-! ## `safeStringify` from src/lib/utils.ts (lines 81-104;
spec name `redactingSerialize`) -/

/-- the redaction test of the replacer: the key contains one of the active
patterns as a case-sensitive substring -/
def redactKey (pats : List String) (key : String) : Bool :=
  pats.any (fun p => strContains key p)

def isUndef : JsValue → Bool
  | .undef => true
  | _ => false

mutual
/-- the redaction pass of `JSON.stringify(obj, replacer, 2)`: the replacer is
applied to every key of every object (and to every index of every array) at
every depth, replacing the value of a matching key by the marker; a
non-matching `undefined`-valued object member is dropped, a non-matching
`undefined` array element becomes null, exactly as in SerializeJSONProperty -/
def redactValue (pats : List String) : JsValue → JsValue
  | .obj fields => .obj (redactFields pats fields)
  | .arr xs => .arr (redactElems pats 0 xs)
  | v => v
def redactFields (pats : List String) : List (String × JsValue) → List (String × JsValue)
  | [] => []
  | (k, v) :: rest =>
    if redactKey pats k then (k, .str "[REDACTED]") :: redactFields pats rest
    else if isUndef v then redactFields pats rest
    else (k, redactValue pats v) :: redactFields pats rest
def redactElems (pats : List String) (i : Nat) : List JsValue → List JsValue
  | [] => []
  | v :: rest =>
    (if redactKey pats (Nat.repr i) then JsValue.str "[REDACTED]"
     else if isUndef v then JsValue.null
     else redactValue pats v) :: redactElems pats (i + 1) rest
end

/-- rendering of an integer as by JS number-to-string -/
def intRepr (i : Int) : String :=
  if i < 0 then "-" ++ Nat.repr i.natAbs else Nat.repr i.natAbs

/-- decimal expansion of the fractional part (numerator remainder over the
denominator), up to the given number of digits -/
def fracDigits : Nat → Nat → Nat → String
  | 0, _, _ => ""
  | f + 1, r, d =>
    if r = 0 then ""
    else
      let r10 := r * 10
      let digit := r10 / d
      let rest := r10 % d
      if rest = 0 then Nat.repr digit
      else Nat.repr digit ++ fracDigits f rest d

/-- rendering of a rational.  Integers render exactly as in JS; non-integral
values render as a truncated fixed-point expansion, an approximation of the
host's shortest-round-trip double formatting (no claim depends on the digits
of a non-integral number). -/
def ratRepr (q : ℚ) : String :=
  if q.den = 1 then intRepr q.num
  else
    (if q.num < 0 then "-" else "")
      ++ Nat.repr (q.num.natAbs / q.den) ++ "."
      ++ fracDigits 32 (q.num.natAbs % q.den) q.den

/-- `JSON.stringify` number serialization: finite numbers print their value,
NaN and the infinities print null -/
def renderNum : JsNum → String
  | .nan => "null"
  | .infinite _ => "null"
  | .finite q => ratRepr q

/-- QuoteJSONString escaping for one character -/
def quoteChar (c : Char) : List Char :=
  if c = '"' then ['\\', '"']
  else if c = '\\' then ['\\', '\\']
  else if c = '\x08' then ['\\', 'b']
  else if c = '\x0c' then ['\\', 'f']
  else if c = '\n' then ['\\', 'n']
  else if c = '\r' then ['\\', 'r']
  else if c = '\t' then ['\\', 't']
  else if c.toNat < 0x20 then
    ['\\', 'u', '0', '0', Nat.digitChar (c.toNat / 16), Nat.digitChar (c.toNat % 16)]
  else [c]

/-- QuoteJSONString -/
def quoteJson (s : String) : String :=
  ⟨'"' :: s.data.foldr (fun c acc => quoteChar c ++ acc) ['"']⟩

/-- the indentation in force at member depth `d` with the 2-space gap -/
def indentStr (depth : Nat) : String := ⟨List.replicate (2 * depth) ' '⟩

mutual
/-- text layout of `JSON.stringify(-, -, 2)` for an already-redacted value:
members of objects and arrays are placed on their own lines, indented two
spaces per depth, with the closing bracket on the stepped-back indent.
`depth` is the indentation level of the value's members.  A remaining
`undef` cannot occur below a redacted value; it is rendered defensively as
null (the array-position behavior of the serializer). -/
def renderJson (depth : Nat) : JsValue → String
  | .undef => "null"
  | .null => "null"
  | .bool b => if b then "true" else "false"
  | .num n => renderNum n
  | .str s => quoteJson s
  | .arr [] => "[]"
  | .arr (x :: xs) =>
    "[\n" ++ indentStr depth ++ renderItems depth (x :: xs)
      ++ "\n" ++ indentStr (depth - 1) ++ "]"
  | .obj [] => "\x7b\x7d"
  | .obj ((k, v) :: fs) =>
    "\x7b\n" ++ indentStr depth ++ renderMembers depth ((k, v) :: fs)
      ++ "\n" ++ indentStr (depth - 1) ++ "\x7d"
def renderItems (depth : Nat) : List JsValue → String
  | [] => ""
  | [x] => renderJson (depth + 1) x
  | x :: xs => renderJson (depth + 1) x ++ ",\n" ++ indentStr depth ++ renderItems depth xs
def renderMembers (depth : Nat) : List (String × JsValue) → String
  | [] => ""
  | [(k, v)] => quoteJson k ++ ": " ++ renderJson (depth + 1) v
  | (k, v) :: fs =>
    quoteJson k ++ ": " ++ renderJson (depth + 1) v ++ ",\n" ++ indentStr depth
      ++ renderMembers depth fs
end

/-- the argument validation of `safeStringify`: the optional second argument
(`none` models an omitted or undefined argument) must be a string that is
non-empty after trimming -/
def validRedactedWord : Option JsValue → Bool
  | none => true
  | some (.str w) => !(jsTrim w == "")
  | some _ => false

/-- the extra pattern contributed by a supplied `redactedWord`: the replacer
guards on the truthiness of `redactedWord`, so the empty string contributes
nothing (that case is already rejected by validation) -/
def extraPatterns : Option JsValue → List String
  | some (.str w) => if w == "" then [] else [w]
  | _ => []

/-- the active redaction patterns: the two built-ins and the optional extra -/
def safePatterns (redactedWord : Option JsValue) : List String :=
  "SECRET" :: "PASSWORD" :: extraPatterns redactedWord

/-- `JSON.stringify(obj, replacer, 2)`: the replacer is applied at the root
under the key \x22\x22 first; an undefined result at the root makes the whole
call return undefined (`none`), otherwise the redacted tree is laid out with
the 2-space gap -/
def stringifyResult (pats : List String) (v : JsValue) : Option String :=
  match (if redactKey pats "" then JsValue.str "[REDACTED]" else redactValue pats v) with
  | .undef => none
  | t => some (renderJson 1 t)

/-- model of `safeStringify`: validate the optional `redactedWord`, then
serialize with the redacting replacer.  The `Except.error` case models the
thrown Error; `Except.ok none` models a JS return value of undefined. -/
def safeStringify (v : JsValue) (redactedWord : Option JsValue) :
    Except String (Option String) :=
  if validRedactedWord redactedWord then
    .ok (stringifyResult (safePatterns redactedWord) v)
  else .error "redactedWord must be a non-empty string"

/-! ## Helper lemmas -/

/-- a predicate on values of the output of the redaction pass: every object
member whose key matches one of the patterns carries the literal marker, at
every nesting depth -/
def isRedactedMarker : JsValue → Bool
  | .str s => s == "[REDACTED]"
  | _ => false

mutual
def redactedOk (pats : List String) : JsValue → Bool
  | .obj fields => redactedFieldsOk pats fields
  | .arr xs => redactedElemsOk pats xs
  | _ => true
def redactedFieldsOk (pats : List String) : List (String × JsValue) → Bool
  | [] => true
  | (k, v) :: rest =>
    (!redactKey pats k || isRedactedMarker v) && redactedOk pats v
      && redactedFieldsOk pats rest
def redactedElemsOk (pats : List String) : List JsValue → Bool
  | [] => true
  | v :: rest => redactedOk pats v && redactedElemsOk pats rest
end

theorem redact_ok_aux (pats : List String) : ∀ n : Nat,
    (∀ v : JsValue, sizeOf v < n → redactedOk pats (redactValue pats v) = true) ∧
    (∀ fs : List (String × JsValue), sizeOf fs < n →
      redactedFieldsOk pats (redactFields pats fs) = true) ∧
    (∀ (i : Nat) (xs : List JsValue), sizeOf xs < n →
      redactedElemsOk pats (redactElems pats i xs) = true) := by
  intro n
  induction n with
  | zero =>
    exact ⟨fun v hv => absurd hv (Nat.not_lt_zero _),
      fun fs hfs => absurd hfs (Nat.not_lt_zero _),
      fun i xs hxs => absurd hxs (Nat.not_lt_zero _)⟩
  | succ n ih =>
    obtain ⟨ihv, ihf, ihe⟩ := ih
    refine ⟨fun v hv => ?_, fun fs hfs => ?_, fun i xs hxs => ?_⟩
    · cases v with
      | obj fields =>
        simp only [redactValue, redactedOk]
        apply ihf
        simp at hv; omega
      | arr xs =>
        simp only [redactValue, redactedOk]
        apply ihe
        simp at hv; omega
      | undef => simp [redactValue, redactedOk]
      | null => simp [redactValue, redactedOk]
      | bool b => simp [redactValue, redactedOk]
      | num m => simp [redactValue, redactedOk]
      | str s => simp [redactValue, redactedOk]
    · cases fs with
      | nil => simp [redactFields, redactedFieldsOk]
      | cons kv rest =>
        obtain ⟨k, v⟩ := kv
        have hrest : sizeOf rest < n := by simp at hfs; omega
        have hv : sizeOf v < n := by simp at hfs; omega
        rw [redactFields]
        by_cases h : redactKey pats k = true
        · rw [if_pos h]
          simp [redactedFieldsOk, redactedOk, isRedactedMarker, ihf rest hrest]
        · rw [if_neg h]
          by_cases hu : isUndef v = true
          · rw [if_pos hu]
            exact ihf rest hrest
          · rw [if_neg hu]
            simp only [redactedFieldsOk, ihv v hv, ihf rest hrest, h,
              Bool.not_false, Bool.and_true]
            simp [h]
    · cases xs with
      | nil => simp [redactElems, redactedElemsOk]
      | cons v rest =>
        have hrest : sizeOf rest < n := by simp at hxs; omega
        have hv : sizeOf v < n := by simp at hxs; omega
        rw [redactElems]
        by_cases h : redactKey pats (Nat.repr i) = true
        · rw [if_pos h]
          simp [redactedElemsOk, redactedOk, ihe (i + 1) rest hrest]
        · rw [if_neg h]
          by_cases hu : isUndef v = true
          · rw [if_pos hu]
            simp [redactedElemsOk, redactedOk, ihe (i + 1) rest hrest]
          · rw [if_neg hu]
            simp [redactedElemsOk, ihv v hv, ihe (i + 1) rest hrest]

theorem redactValue_ok (pats : List String) (v : JsValue) :
    redactedOk pats (redactValue pats v) = true :=
  (redact_ok_aux pats (sizeOf v + 1)).1 v (Nat.lt_succ_self _)

theorem redactValue_ne_undef (pats : List String) (v : JsValue) (h : v ≠ .undef) :
    redactValue pats v ≠ .undef := by
  cases v <;> simp_all [redactValue]

theorem strContains_empty_false (p : String) (hp : p ≠ "") :
    strContains "" p = false := by
  obtain ⟨l⟩ := p
  cases l with
  | nil => exact absurd rfl hp
  | cons c cs => rfl

theorem jsTrim_empty : jsTrim "" = "" := rfl

theorem extraPatterns_ne_empty (rw : Option JsValue)
    (h : validRedactedWord rw = true) : ∀ p ∈ extraPatterns rw, p ≠ "" := by
  intro p hp
  cases rw with
  | none => simp [extraPatterns] at hp
  | some w =>
    cases w with
    | str s =>
      have hs : s ≠ "" := by
        intro he
        subst he
        simp [validRedactedWord, jsTrim_empty] at h
      simp only [extraPatterns] at hp
      rw [if_neg (by simpa using hs)] at hp
      rw [List.mem_singleton] at hp
      subst hp
      exact hs
    | undef => simp [validRedactedWord] at h
    | null => simp [validRedactedWord] at h
    | bool b => simp [validRedactedWord] at h
    | num m => simp [validRedactedWord] at h
    | arr xs => simp [validRedactedWord] at h
    | obj fs => simp [validRedactedWord] at h

theorem safePatterns_ne_empty (rw : Option JsValue)
    (h : validRedactedWord rw = true) : ∀ p ∈ safePatterns rw, p ≠ "" := by
  intro p hp
  simp only [safePatterns, List.mem_cons] at hp
  rcases hp with h1 | h1 | h1
  · subst h1; decide
  · subst h1; decide
  · exact extraPatterns_ne_empty rw h p h1

theorem redactKey_root_false (rw : Option JsValue)
    (h : validRedactedWord rw = true) : redactKey (safePatterns rw) "" = false := by
  simp only [redactKey]
  rw [List.any_eq_false]
  intro p hp
  simp [strContains_empty_false p (safePatterns_ne_empty rw h p hp)]

theorem env_eq_of_lookup (environ : String → Option String) (key value : String)
    (d : JsValue) (hk : key ≠ "") (hv : environ key = some value) :
    env environ key d = envValue value d := by
  simp [env, hk, hv]

theorem digitChar_isDigit (m : Nat) (h : m < 10) :
    (Nat.digitChar m).isDigit = true := by
  interval_cases m <;> decide

theorem toDigitsCore_digits (fuel : Nat) : ∀ (n : Nat) (acc : List Char),
    (∀ c ∈ acc, c.isDigit = true) →
    ∀ c ∈ Nat.toDigitsCore 10 fuel n acc, c.isDigit = true := by
  induction fuel with
  | zero => intro n acc hacc c hc; simp [Nat.toDigitsCore] at hc; exact hacc c hc
  | succ fuel ih =>
    intro n acc hacc c hc
    simp only [Nat.toDigitsCore] at hc
    by_cases h : n / 10 = 0
    · rw [if_pos h] at hc
      rcases List.mem_cons.mp hc with h1 | h2
      · subst h1; exact digitChar_isDigit _ (Nat.mod_lt _ (by norm_num))
      · exact hacc c h2
    · rw [if_neg h] at hc
      refine ih (n / 10) _ ?_ c hc
      intro d hd
      rcases List.mem_cons.mp hd with h1 | h2
      · subst h1; exact digitChar_isDigit _ (Nat.mod_lt _ (by norm_num))
      · exact hacc d h2

theorem natRepr_digits (n : Nat) : ∀ c ∈ (Nat.repr n).data, c.isDigit = true := by
  intro c hc
  have h : (Nat.repr n).data = Nat.toDigits 10 n := rfl
  rw [h] at hc
  exact toDigitsCore_digits (n + 1) n [] (by simp) c hc

theorem listContainsSeg_head_false (p0 : Char) (ps : List Char) (s : List Char)
    (h : ∀ c ∈ s, (p0 == c) = false) : listContainsSeg (p0 :: ps) s = false := by
  induction s with
  | nil => simp [listContainsSeg, listIsPrefix]
  | cons c rest ih =>
    simp only [listContainsSeg, listIsPrefix, Bool.or_eq_false_iff,
      Bool.and_eq_false_iff]
    constructor
    · left; exact h c (List.mem_cons_self _ _)
    · exact ih (fun d hd => h d (List.mem_cons_of_mem _ hd))

theorem strContains_repr_nondigit (i : Nat) (p0 : Char) (ps : List Char)
    (h : p0.isDigit = false) : strContains (Nat.repr i) ⟨p0 :: ps⟩ = false := by
  apply listContainsSeg_head_false
  intro c hc
  have hd := natRepr_digits i c hc
  simp only [beq_eq_false_iff_ne, ne_eq]
  intro he
  subst he
  rw [hd] at h
  cases h

/-- the error outcome of the serializer, for claim statements -/
def isErr : Except String (Option String) → Bool
  | .error _ => true
  | .ok _ => false

/-- the environment of the spec's end-to-end coercion scenario -/
def scenarioEnv : String → Option String := fun k =>
  if k = "PORT" then some "8080"
  else if k = "DEBUG" then some "true"
  else if k = "TAGS" then some "a,b,c"
  else if k = "OPTS" then some "\x7b\"x\":1\x7d"
  else none

/-! ## Claim theorems -/

/-- C1: for every input value and at every nesting depth of the object graph,
the redacting serializer replaces the value of any object key containing the
case-sensitive substring SECRET, PASSWORD, or the supplied extraPattern with
the literal marker, and the redaction decision depends only on the key name,
never on the value (the redacted member is identical for any two values under
the same matching key). -/
theorem redaction_applies_at_every_depth (v : JsValue) (w : String)
    (hw : jsTrim w ≠ "") :
    redactedOk (safePatterns (some (.str w)))
        (redactValue (safePatterns (some (.str w))) v) = true
    ∧ ∀ (k : String) (u1 u2 : JsValue) (rest : List (String × JsValue)),
        redactKey (safePatterns (some (.str w))) k = true →
        redactFields (safePatterns (some (.str w))) ((k, u1) :: rest)
          = redactFields (safePatterns (some (.str w))) ((k, u2) :: rest) := by
  refine ⟨redactValue_ok _ v, ?_⟩
  intro k u1 u2 rest h
  rw [redactFields, redactFields, if_pos h, if_pos h]

/-- witness for C1 at the spec's nested example and extra pattern X -/
theorem redaction_applies_at_every_depth_witness :
    jsTrim "X" ≠ ""
    ∧ (redactedOk (safePatterns (some (.str "X")))
        (redactValue (safePatterns (some (.str "X")))
          (.obj [("nested", .obj [("USER_PASSWORD", .str "p")])])) = true
      ∧ ∀ (k : String) (u1 u2 : JsValue) (rest : List (String × JsValue)),
          redactKey (safePatterns (some (.str "X"))) k = true →
          redactFields (safePatterns (some (.str "X"))) ((k, u1) :: rest)
            = redactFields (safePatterns (some (.str "X"))) ((k, u2) :: rest)) :=
  ⟨by decide,
    redaction_applies_at_every_depth
      (.obj [("nested", .obj [("USER_PASSWORD", .str "p")])]) "X" (by decide)⟩

/-- C2: for every key whose looked-up value is JSON-looking (starts with an
opening brace and ends with a closing brace, or the bracket pair), a JSON
decode failure makes `env` return the caller-supplied default, not the raw
string, with no boolean or numeric coercion attempted. -/
theorem env_json_decode_failure_returns_default (environ : String → Option String)
    (key value : String) (d : JsValue) (e : String)
    (hk : key ≠ "") (hv : environ key = some value)
    (hj : looksLikeJson value = true) (he : jsonParse value = .error e) :
    env environ key d = d := by
  have hne : value ≠ "" := by
    intro h0
    subst h0
    exact absurd hj (by decide)
  rw [env_eq_of_lookup environ key value d hk hv]
  simp [envValue, hne, hj, he]

/-- witness for C2 at a malformed JSON-looking value -/
theorem env_json_decode_failure_returns_default_witness :
    ("K" : String) ≠ "" ∧ looksLikeJson "\x7boops\x7d" = true
    ∧ jsonParse "\x7boops\x7d" = .error "SyntaxError"
    ∧ env (fun _ => some "\x7boops\x7d") "K" (.bool false) = .bool false :=
  ⟨by decide, by decide, rfl,
    env_json_decode_failure_returns_default (fun _ => some "\x7boops\x7d") "K"
      "\x7boops\x7d" (.bool false) "SyntaxError" (by decide) rfl (by decide) rfl⟩

/-- C3: for every key absent from the Configuration Source, and for every key
present with the empty value, `env` returns the supplied default exactly, for
any default including undefined, null, zero and false, with no coercion
attempted. -/
theorem env_absent_or_empty_returns_default (environ : String → Option String)
    (key : String) (d : JsValue)
    (h : environ key = none ∨ environ key = some "") :
    env environ key d = d := by
  by_cases hk : key = ""
  · simp [env, hk]
  · rcases h with h | h
    · simp [env, hk, h]
    · rw [env_eq_of_lookup environ key "" d hk h]
      rfl

/-- witness for C3 at an absent key and the undefined default -/
theorem env_absent_or_empty_returns_default_witness :
    ((fun (_ : String) => (none : Option String)) "MISSING" = none
      ∨ (fun (_ : String) => (none : Option String)) "MISSING" = some "")
    ∧ env (fun _ => none) "MISSING" .undef = .undef :=
  ⟨Or.inl rfl,
    env_absent_or_empty_returns_default (fun _ => none) "MISSING" .undef (Or.inl rfl)⟩

/-- C4: for every key whose non-empty value passes the numeric-parse check
(once the JSON-bracket and boolean steps do not apply), `env` returns the
value converted to a number; in particular the value 0 yields the number 0
rather than the default, and a whitespace-only value yields the number 0. -/
theorem env_numeric_coercion :
    (∀ (environ : String → Option String) (key value : String) (d : JsValue),
      key ≠ "" → environ key = some value → value ≠ "" →
      looksLikeJson value = false →
      strToLower value ≠ "true" → strToLower value ≠ "false" →
      jsStringToNumber value ≠ .nan →
      env environ key d = .num (jsStringToNumber value))
    ∧ (∀ (environ : String → Option String) (key : String) (d : JsValue),
        key ≠ "" → environ key = some "0" →
        env environ key d = .num (.finite 0))
    ∧ (∀ (environ : String → Option String) (key : String) (d : JsValue),
        key ≠ "" → environ key = some "  " →
        env environ key d = .num (.finite 0)) := by
  refine ⟨?_, ?_, ?_⟩
  · intro environ key value d hk hv hne hj ht hf hn
    rw [env_eq_of_lookup environ key value d hk hv]
    unfold envValue
    rw [if_neg hne, if_neg (show ¬looksLikeJson value = true by simp [hj]),
      if_neg ht, if_neg hf]
    cases h : jsStringToNumber value with
    | nan => exact absurd h hn
    | infinite b => rfl
    | finite q => rfl
  · intro environ key d hk hv
    rw [env_eq_of_lookup environ key "0" d hk hv]
    rfl
  · intro environ key d hk hv
    rw [env_eq_of_lookup environ key "  " d hk hv]
    rfl

/-- witness for C4 at the value 8080 -/
theorem env_numeric_coercion_witness :
    ("PORT" : String) ≠ "" ∧ jsStringToNumber "8080" ≠ JsNum.nan
    ∧ env (fun _ => some "8080") "PORT" .null = .num (.finite 8080) := by
  refine ⟨by decide, by decide, ?_⟩
  have h := env_numeric_coercion.1 (fun _ => some "8080") "PORT" "8080" .null
    (by decide) rfl (by decide) (by decide) (by decide) (by decide) (by decide)
  rw [h]
  rfl

/-- C5: the serializer raises the invalid-argument error if and only if the
redaction-pattern argument is supplied but is not a string that is non-empty
after trimming; for a valid or absent pattern the call does not error (so
this is the only error the serializer itself raises). -/
theorem safeStringify_error_iff_bad_pattern (v : JsValue) (rw : Option JsValue) :
    isErr (safeStringify v rw) = true
      ↔ ∃ w, rw = some w ∧ ∀ s, w = .str s → jsTrim s = "" := by
  constructor
  · intro h
    cases hval : validRedactedWord rw with
    | true =>
      rw [safeStringify, if_pos hval] at h
      exact absurd h (by simp [isErr])
    | false =>
      cases rw with
      | none => exact absurd hval (by simp [validRedactedWord])
      | some w =>
        refine ⟨w, rfl, ?_⟩
        intro s hs
        subst hs
        simpa [validRedactedWord] using hval
  · intro hex
    obtain ⟨w, hw, hs⟩ := hex
    subst hw
    have hval : validRedactedWord (some w) = false := by
      cases w with
      | str s => simp [validRedactedWord, hs s rfl]
      | undef => rfl
      | null => rfl
      | bool b => rfl
      | num m => rfl
      | arr xs => rfl
      | obj fs => rfl
    rw [safeStringify, if_neg (by simp [hval])]
    rfl

/-- witness for C5: the whitespace-only pattern errors -/
theorem safeStringify_error_iff_bad_pattern_witness :
    isErr (safeStringify JsValue.null (some (.str "   "))) = true :=
  (safeStringify_error_iff_bad_pattern JsValue.null (some (.str "   "))).mpr
    ⟨.str "   ", rfl, fun s hs => by cases hs; rfl⟩

/-- C6: in the spec's scenario Configuration Source, PORT coerces to the
number 8080, DEBUG to the boolean true, TAGS to the literal string a,b,c
(comma-splitting is not part of the default coercion path), and OPTS to the
decoded object with field x equal to 1. -/
theorem env_scenario :
    env scenarioEnv "PORT" .undef = .num (.finite 8080)
    ∧ env scenarioEnv "DEBUG" .undef = .bool true
    ∧ env scenarioEnv "TAGS" .undef = .str "a,b,c"
    ∧ env scenarioEnv "OPTS" .undef = .obj [("x", .num (.finite 1))] :=
  ⟨rfl, rfl, rfl, rfl⟩

/-- C7: `safeArray` is total (a function of the whole value type) and, case by
case: undefined and null yield the empty array; an array is returned as-is; a
string is trimmed, an empty trimmed string yields the empty array, a string
containing a comma is split on commas with segments trimmed and empty
segments dropped in order, any other string yields a singleton of the trimmed
string; an object or any other primitive yields a singleton wrapping it. -/
theorem safeArray_spec :
    safeArray .undef = []
    ∧ safeArray .null = []
    ∧ (∀ xs : List JsValue, safeArray (.arr xs) = xs)
    ∧ (∀ s : String, jsTrim s = "" → safeArray (.str s) = [])
    ∧ (∀ s : String, jsTrim s ≠ "" → strContainsChar (jsTrim s) ',' = true →
        safeArray (.str s)
          = (((strSplitComma (jsTrim s)).map jsTrim).filter
              (fun item => item != "")).map JsValue.str)
    ∧ (∀ s : String, jsTrim s ≠ "" → strContainsChar (jsTrim s) ',' = false →
        safeArray (.str s) = [.str (jsTrim s)])
    ∧ (∀ fs : List (String × JsValue), safeArray (.obj fs) = [.obj fs])
    ∧ (∀ b : Bool, safeArray (.bool b) = [.bool b])
    ∧ (∀ n : JsNum, safeArray (.num n) = [.num n]) := by
  have hlen : ∀ l : List String,
      (if l.length > 0 then l.map JsValue.str else []) = l.map JsValue.str := by
    intro l
    cases l <;> simp
  refine ⟨rfl, rfl, fun xs => rfl, ?_, ?_, ?_, fun fs => rfl, fun b => rfl,
    fun n => rfl⟩
  · intro s h
    simp [safeArray, h]
  · intro s h1 h2
    simp [safeArray, h1, h2, hlen]
  · intro s h1 h2
    simp [safeArray, h1, h2]

/-- witness for C7 at the spec's comma example -/
theorem safeArray_spec_witness :
    jsTrim "a, b ,c" ≠ "" ∧ strContainsChar (jsTrim "a, b ,c") ',' = true
    ∧ safeArray (.str "a, b ,c") = [.str "a", .str "b", .str "c"] := by
  refine ⟨by decide, by decide, ?_⟩
  have h := safeArray_spec.2.2.2.2.1 "a, b ,c" (by decide) (by decide)
  rw [h]
  rfl

/-- C8: `env` never throws: it is a total function; a missing key (or an
empty key, or an empty value) returns the default, and the only throwing
operation inside coercion, JSON decoding, is caught and converted into
returning the default. -/
theorem env_never_throws :
    (∀ (environ : String → Option String) (d : JsValue), env environ "" d = d)
    ∧ (∀ (environ : String → Option String) (key : String) (d : JsValue),
        environ key = none → env environ key d = d)
    ∧ (∀ (environ : String → Option String) (key value : String) (d : JsValue)
        (e : String), environ key = some value → looksLikeJson value = true →
        jsonParse value = .error e → env environ key d = d) := by
  refine ⟨?_, ?_, ?_⟩
  · intro environ d
    simp [env]
  · intro environ key d h
    by_cases hk : key = ""
    · simp [env, hk]
    · simp [env, hk, h]
  · intro environ key value d e hv hj he
    by_cases hk : key = ""
    · simp [env, hk]
    · have hne : value ≠ "" := by
        intro h0
        subst h0
        exact absurd hj (by decide)
      rw [env_eq_of_lookup environ key value d hk hv]
      simp [envValue, hne, hj, he]

/-- witness for C8 at a JSON-looking value with a trailing comma -/
theorem env_never_throws_witness :
    (fun (_ : String) => some "[1,]") "K" = some "[1,]"
    ∧ looksLikeJson "[1,]" = true
    ∧ jsonParse "[1,]" = .error "SyntaxError"
    ∧ env (fun _ => some "[1,]") "K" .null = .null :=
  ⟨rfl, by decide, rfl,
    env_never_throws.2.2 (fun _ => some "[1,]") "K" "[1,]" JsValue.null
      "SyntaxError" rfl (by decide) rfl⟩

/-- C9 counterexample: at the input undefined (with the pattern absent) the
serializer returns the undefined sentinel (`Except.ok none`), not a string,
so the claim that every input yields a string fails at this input. -/
theorem safeStringify_undef_not_string :
    safeStringify .undef none = .ok none := by
  have hroot := redactKey_root_false none rfl
  simp [safeStringify, validRedactedWord, stringifyResult, hroot, redactValue]

/-- C9 (amended): for every input value other than the undefined sentinel,
with a valid or absent extraPattern, the serializer returns a string, namely
the 2-space-indented structural serialization of the redacted value. -/
theorem safeStringify_returns_rendered_string (v : JsValue) (rw : Option JsValue)
    (hval : validRedactedWord rw = true) (hv : v ≠ .undef) :
    safeStringify v rw
      = .ok (some (renderJson 1 (redactValue (safePatterns rw) v))) := by
  have hroot := redactKey_root_false rw hval
  have hne := redactValue_ne_undef (safePatterns rw) v hv
  rw [safeStringify, if_pos hval]
  rw [stringifyResult, if_neg (by simp [hroot])]
  cases h : redactValue (safePatterns rw) v with
  | undef => exact absurd h hne
  | null => rfl
  | bool b => rfl
  | num n => rfl
  | str s => rfl
  | arr xs => rfl
  | obj fs => rfl

/-- witness for C9 (amended) at the null input -/
theorem safeStringify_returns_rendered_string_witness :
    validRedactedWord none = true ∧ JsValue.null ≠ JsValue.undef
    ∧ safeStringify .null none
        = .ok (some (renderJson 1 (redactValue (safePatterns none) .null))) :=
  ⟨rfl, fun h => JsValue.noConfusion h,
    safeStringify_returns_rendered_string .null none rfl
      (fun h => JsValue.noConfusion h)⟩

/-- C10: the redaction key-matching rule also applies to array elements under
their decimal index strings: a digit extraPattern redacts the element at the
matching index (here index 1 of a two-element array), while the built-in
patterns SECRET and PASSWORD never match any index string. -/
theorem redactKey_array_indices :
    redactValue (safePatterns (some (.str "1"))) (.arr [.str "a", .str "b"])
        = .arr [.str "a", .str "[REDACTED]"]
    ∧ ∀ i : Nat, redactKey (safePatterns none) (Nat.repr i) = false := by
  constructor
  · have h0 : Nat.repr 0 = "0" := rfl
    have h1 : Nat.repr 1 = "1" := rfl
    simp [redactValue, redactElems, redactKey, safePatterns, extraPatterns,
      strContains, h0, h1, listContainsSeg, listIsPrefix, isUndef]
    decide
  · intro i
    have hS : strContains (Nat.repr i) "SECRET" = false :=
      strContains_repr_nondigit i 'S' ['E', 'C', 'R', 'E', 'T'] (by decide)
    have hP : strContains (Nat.repr i) "PASSWORD" = false :=
      strContains_repr_nondigit i 'P' ['A', 'S', 'S', 'W', 'O', 'R', 'D'] (by decide)
    simp [safePatterns, extraPatterns, redactKey, hS, hP]

end EnvX
